import Mathlib

set_option maxRecDepth 8000

/-!
Shallow embedding of the cal2 calendar tool (Rust): the holiday cache and
provider-resolution subsystem (src/holidays.rs), the CLI actions
(src/cli/actions.rs) and the calendar month arithmetic and day-cell
classification (src/display_month.rs).

Modelling conventions:
* filesystem effects are modelled by explicit state passing over an
  abstract file store `FS : String → Option CacheFile`;
* machine integers (`u32`, `i32`, `u64`) are modelled as `Nat` / `Int`
  with explicit range bounds where the range matters;
* fallible Rust functions returning `Result` are modelled with `Except`;
* the external serializer (bincode) is modelled by a decoded view of the
  file bytes (`CacheBytes`) together with its documented size formula;
* the external clock (`Utc::now`) and the network fetch are passed in as
  explicit parameters, as the spec's design notes prescribe.
-/

namespace Cal2

/-- Holiday provenance, from `enum HolidayKind` in src/holidays.rs. -/
inductive HolidayKind where
  | Official
  | Custom
deriving DecidableEq, Repr

/-- One holiday record, from `struct HolidayEntry` in src/holidays.rs. -/
structure HolidayEntry where
  name : String
  kind : HolidayKind
deriving DecidableEq, Repr

/-- `HolidayEntry::official`. -/
def HolidayEntry.official (name : String) : HolidayEntry :=
  ⟨name, .Official⟩

/-- `HolidayEntry::custom`. -/
def HolidayEntry.custom (name : String) : HolidayEntry :=
  ⟨name, .Custom⟩

/-- A holiday-map key: `(day, month)`, both `u32` in the source. -/
abbrev Key := Nat × Nat

/-- `type HM = HashMap<(u32, u32), HolidayEntry>` (src/main.rs), modelled as
an association list with unique keys. -/
abbrev HM := List (Key × HolidayEntry)

/-- `HashMap::get` on the association-list model. -/
def HM.find? (hm : HM) (k : Key) : Option HolidayEntry :=
  match hm with
  | [] => none
  | (k', v) :: rest => if k' = k then some v else HM.find? rest k

/-- `HashMap::contains_key`. -/
def HM.containsKey (hm : HM) (k : Key) : Bool :=
  (HM.find? hm k).isSome

/-- `HashMap::insert` (replaces the value when the key is present). -/
def HM.insertKV (hm : HM) (k : Key) (v : HolidayEntry) : HM :=
  match hm with
  | [] => [(k, v)]
  | (k', v') :: rest =>
    if k' = k then (k, v) :: rest else (k', v') :: HM.insertKV rest k v

/-- `HashMap::remove`. -/
def HM.eraseKey (hm : HM) (k : Key) : HM :=
  match hm with
  | [] => []
  | (k', v') :: rest =>
    if k' = k then rest else (k', v') :: HM.eraseKey rest k

/-- `enum CalError` from src/error.rs; payloads of the wrapped external
errors are modelled as their rendered messages. -/
inductive CalError where
  | Io (msg : String)
  | Bincode (msg : String)
  | Json (msg : String)
  | Http (msg : String)
  | InvalidDate (msg : String)
  | Config (msg : String)
  | Cache (msg : String)
deriving DecidableEq, Repr

/-- `enum Provider` from src/holidays.rs. -/
inductive Provider where
  | ArgentinaDatos
  | OpenHolidays (country_code : String)
deriving DecidableEq, Repr

deriving instance DecidableEq for Except

/-- Rust `str::trim` (whitespace from both ends). -/
def rustTrim (s : String) : String :=
  ((s.toList.dropWhile Char.isWhitespace).reverse.dropWhile
    Char.isWhitespace).reverse.asString

/-- Rust `str::to_uppercase`, on the ASCII range. -/
def rustToUpper (s : String) : String :=
  (s.toList.map Char.toUpper).asString

/-- Rust `str::to_lowercase`, on the ASCII range. -/
def rustToLower (s : String) : String :=
  (s.toList.map Char.toLower).asString

/-- `Provider::from_country` (src/holidays.rs lines 70-100).  Rust's
`len()` is the byte length, `String.utf8ByteSize` here;
`char::is_ascii_alphabetic` is `Char.isAlpha`. -/
def Provider.from_country (country : Option String) : Except CalError Provider :=
  match country with
  | none => .ok .ArgentinaDatos
  | some c =>
    let trimmed := rustTrim c
    if trimmed.isEmpty then
      .error (.Config "--country cannot be empty")
    else
      let upper := rustToUpper trimmed
      if ¬ (2 ≤ upper.utf8ByteSize ∧ upper.utf8ByteSize ≤ 3) then
        .error (.Config "--country must be a 2- or 3-letter ISO code")
      else if ¬ (upper.toList.all fun ch => ch.isAlpha) then
        .error (.Config "--country must contain only ASCII letters")
      else if upper = "AR" then
        .ok .ArgentinaDatos
      else
        .ok (.OpenHolidays upper)

/-- `Provider::is_default`. -/
def Provider.isDefaultProvider : Provider → Bool
  | .ArgentinaDatos => true
  | .OpenHolidays _ => false

/-- `Provider::slug`. -/
def Provider.slug : Provider → String
  | .ArgentinaDatos => "argentina-datos"
  | .OpenHolidays cc => "openholidays-" ++ rustToLower cc

/-- `get_filename` (src/holidays.rs lines 123-130).  `shellexpand::tilde`
is an environment lookup; the deterministic unexpanded path is the key of
the modelled file store. -/
def get_filename (year : Int) (provider : Provider) : String :=
  let basename :=
    if provider.isDefaultProvider then "hm-" ++ toString year
    else "hm-" ++ provider.slug ++ "-" ++ toString year
  "~/.config/" ++ basename

/-- `const MAX_CACHE_BYTES: u64 = 10 * 1024 * 1024`. -/
def MAX_CACHE_BYTES : Nat := 10 * 1024 * 1024

/-- `type LegacyHM = HashMap<(u32, u32), bool>`. -/
abbrev LegacyHM := List (Key × Bool)

/-- Decoded view of a cache file's bytes: bincode either decodes them as
the current schema, as the legacy schema, or as neither. -/
inductive CacheBytes where
  | current (hm : HM)
  | legacy (m : LegacyHM)
  | garbage
deriving DecidableEq

/-- An on-disk cache file: its byte length (checked against the 10 MiB
guard before any decode) and the decoded view of its bytes. -/
structure CacheFile where
  size : Nat
  content : CacheBytes
deriving DecidableEq

/-- `bincode::deserialize::<HM>`. -/
def decodeCurrent : CacheBytes → Option HM
  | .current hm => some hm
  | _ => none

/-- `bincode::deserialize::<LegacyHM>`. -/
def decodeLegacy : CacheBytes → Option LegacyHM
  | .legacy m => some m
  | _ => none

/-- Byte size of one serialized entry under bincode's defaults:
`(u32, u32)` key is 4+4 bytes, the string is an 8-byte length prefix plus
its bytes, and the `HolidayKind` tag is a 4-byte variant index.  Names in
this development are ASCII, so `String.length` is their byte count. -/
def encodedEntrySize (p : Key × HolidayEntry) : Nat :=
  4 + 4 + (8 + p.2.name.length) + 4

/-- Byte size of a serialized `HM`: 8-byte length prefix plus entries. -/
def encodedSize (hm : HM) : Nat :=
  8 + (hm.map encodedEntrySize).sum

/-- `bincode::serialize` of a current-schema map. -/
def encode (hm : HM) : CacheFile :=
  ⟨encodedSize hm, .current hm⟩

/-- The modelled filesystem: file path to file, if present. -/
abbrev FS := String → Option CacheFile

/-- `save` (src/holidays.rs lines 171-177): serialize the map and write it
at `fname`, overwriting unconditionally. -/
def save (fs : FS) (fname : String) (hm : HM) : FS :=
  fun f => if f = fname then some (encode hm) else fs f

/-- Rust's `{:02}` formatting of a `u32`. -/
def pad2 (n : Nat) : String :=
  if (Nat.repr n).length < 2 then "0" ++ Nat.repr n else Nat.repr n

/-- The generated name of a migrated legacy entry:
`format!("Legacy holiday ({day:02}/{month:02})")`. -/
def legacyName (k : Key) : String :=
  "Legacy holiday (" ++ pad2 k.1 ++ "/" ++ pad2 k.2 ++ ")"

/-- The legacy-to-current migration loop inside `load` (src/holidays.rs
lines 155-161): keep `true`-valued entries as `Custom` entries with a
generated name, drop `false`-valued entries. -/
def migrateLegacy (legacy : LegacyHM) : HM :=
  legacy.foldl
    (fun acc p =>
      if p.2 then HM.insertKV acc p.1 (HolidayEntry.custom (legacyName p.1))
      else acc)
    []

/-- `load` (src/holidays.rs lines 135-169).  Returns the possibly-updated
filesystem (the legacy branch writes the migrated map back) together with
`None` for a missing file, mirroring `Result<Option<HM>>`. -/
def load (fs : FS) (fname : String) : Except CalError (FS × Option HM) :=
  match fs fname with
  | none => .ok (fs, none)
  | some file =>
    if file.size > MAX_CACHE_BYTES then
      .error (.Cache ("cache " ++ fname ++ " exceeds " ++
        toString MAX_CACHE_BYTES ++ " bytes"))
    else
      match decodeCurrent file.content with
      | some hm => .ok (fs, some hm)
      | none =>
        match decodeLegacy file.content with
        | some legacy =>
          let migrated := migrateLegacy legacy
          .ok (save fs fname migrated, some migrated)
        | none =>
          .error (.Cache ("failed to deserialize cache " ++ fname))

/-- `get_holidays` (src/holidays.rs lines 179-188).  The outcome of the
network round trip `provider.fetch(year)` enters as `fetchResult`; note
that a `load` error propagates through the `?` operator. -/
def get_holidays (fetchResult : Except CalError HM) (fs : FS) (year : Int)
    (provider : Provider) : Except CalError (FS × HM) :=
  let fname := get_filename year provider
  match load fs fname with
  | .error e => .error e
  | .ok (fs1, some hm) => .ok (fs1, hm)
  | .ok (fs1, none) =>
    match fetchResult with
    | .error e => .error e
    | .ok hm => .ok (save fs1 fname hm, hm)

/-- Rust `u32::from_str`: an optional leading `+`, then one or more ASCII
digits, value below `2^32`. -/
def parseU32 (cs : List Char) : Option Nat :=
  let digits :=
    match cs with
    | '+' :: rest => rest
    | _ => cs
  if digits.isEmpty then none
  else if digits.all Char.isDigit then
    let v := digits.foldl (fun acc ch => acc * 10 + (ch.toNat - 48)) 0
    if v < 2 ^ 32 then some v else none
  else none

/-- Split a character list at every occurrence of `sep` (Rust
`str::split(sep)`). -/
def splitChar (sep : Char) : List Char → List Char → List (List Char)
  | [], acc => [acc.reverse]
  | c :: rest, acc =>
    if c = sep then acc.reverse :: splitChar sep rest []
    else splitChar sep rest (c :: acc)

/-- `str::splitn(3, '-')`: split on `-` into at most three parts, the
last part keeping any further separators. -/
def splitn3 (cs : List Char) : List (List Char) :=
  match splitChar '-' cs [] with
  | a :: b :: c :: rest => [a, b, List.intercalate ['-'] (c :: rest)]
  | parts => parts

/-- `parse_date` (src/holidays.rs lines 232-238): split on `-`, discard
the year, parse month then day, return `(day, month)`. -/
def parse_date (date : String) : Option (Nat × Nat) :=
  match splitn3 date.toList with
  | _y :: ms :: ds :: _ =>
    match parseU32 ms with
    | none => none
    | some m =>
      match parseU32 ds with
      | none => none
      | some d => some (d, m)
  | _ => none

/-- `build_holidays` (src/holidays.rs lines 219-230): insert an `Official`
entry per parseable date, silently skipping unparseable ones. -/
def build_holidays (entries : List (String × String)) : HM :=
  entries.foldl
    (fun hm p =>
      match parse_date p.1 with
      | some k => HM.insertKV hm k (HolidayEntry.official p.2)
      | none => hm)
    []

/-- chrono's minimum representable year (`i32::MIN >> 13`). -/
def MIN_YEAR : Int := -262144

/-- chrono's maximum representable year (`i32::MAX >> 13`). -/
def MAX_YEAR : Int := 262143

/-- A chrono `NaiveDate`, modelled as its calendar fields. -/
structure Date where
  year : Int
  month : Nat
  day : Nat
deriving DecidableEq, Repr

/-- Gregorian leap-year rule. -/
def isLeapYear (y : Int) : Bool :=
  y % 4 = 0 && (y % 100 ≠ 0 || y % 400 = 0)

/-- Length of a month in the proleptic Gregorian calendar. -/
def daysInMonth (y : Int) (m : Nat) : Nat :=
  if m = 2 then (if isLeapYear y then 29 else 28)
  else if m = 4 ∨ m = 6 ∨ m = 9 ∨ m = 11 then 30
  else 31

/-- chrono `NaiveDate::from_ymd_opt`. -/
def from_ymd_opt (y : Int) (m d : Nat) : Option Date :=
  if MIN_YEAR ≤ y ∧ y ≤ MAX_YEAR ∧ 1 ≤ m ∧ m ≤ 12 ∧ 1 ≤ d ∧ d ≤ daysInMonth y m
  then some ⟨y, m, d⟩ else none

/-- chrono `NaiveDate::pred_opt` (previous day, `None` at the minimum). -/
def pred_opt (d : Date) : Option Date :=
  if 1 < d.day then some ⟨d.year, d.month, d.day - 1⟩
  else if 1 < d.month then some ⟨d.year, d.month - 1, daysInMonth d.year (d.month - 1)⟩
  else if MIN_YEAR < d.year then some ⟨d.year - 1, 12, 31⟩
  else none

/-- chrono `checked_add_days(Days::new(1))` (next day, `None` at the
maximum). -/
def succ_opt (d : Date) : Option Date :=
  if d.day < daysInMonth d.year d.month then some ⟨d.year, d.month, d.day + 1⟩
  else if d.month < 12 then some ⟨d.year, d.month + 1, 1⟩
  else if d.year < MAX_YEAR then some ⟨d.year + 1, 1, 1⟩
  else none

/-- Days since 1970-01-01 in the proleptic Gregorian calendar (Hinnant's
civil-days algorithm); `Int` division here is Euclidean, which floors for
the positive divisors used. -/
def daysFromCivil (dt : Date) : Int :=
  let y : Int := if dt.month ≤ 2 then dt.year - 1 else dt.year
  let era : Int := y / 400
  let yoe : Int := y - era * 400
  let mp : Nat := if 3 ≤ dt.month then dt.month - 3 else dt.month + 9
  let doy : Int := (153 * (mp : Int) + 2) / 5 + (dt.day : Int) - 1
  let doe : Int := yoe * 365 + yoe / 4 - yoe / 100 + doy
  era * 146097 + doe - 719468

/-- chrono `Weekday::number_from_monday` (Monday = 1 … Sunday = 7);
1970-01-01 was a Thursday. -/
def numberFromMonday (dt : Date) : Nat :=
  ((daysFromCivil dt + 3) % 7).toNat + 1

/-- `weekends.contains(&cr.weekday())` with
`weekends = [Weekday::Sat, Weekday::Sun]`. -/
def isWeekend (dt : Date) : Bool :=
  numberFromMonday dt = 6 || numberFromMonday dt = 7

/-- chrono `Month::try_from(month as u8).name()`; only reached for
month 1..=12 because both date constructions in `new` succeed first. -/
def monthName (m : Nat) : Option String :=
  match m with
  | 1 => some "January"
  | 2 => some "February"
  | 3 => some "March"
  | 4 => some "April"
  | 5 => some "May"
  | 6 => some "June"
  | 7 => some "July"
  | 8 => some "August"
  | 9 => some "September"
  | 10 => some "October"
  | 11 => some "November"
  | 12 => some "December"
  | _ => none

/-- `struct DisplayMonth` (src/display_month.rs). -/
structure DisplayMonth where
  month : Nat
  year : Int
  month_name : String
  first_day : Date
  last_day : Date
  hm : HM
deriving DecidableEq

/-- `DisplayMonth::new` (src/display_month.rs lines 20-39). -/
def DisplayMonth.new (month : Nat) (year : Int) (hm : HM) :
    Except CalError DisplayMonth :=
  match from_ymd_opt year month 1 with
  | none => .error (.InvalidDate ("invalid month " ++ Nat.repr month))
  | some first_day =>
    match ((from_ymd_opt year (month + 1) 1).orElse
        (fun _ => from_ymd_opt (year + 1) 1 1)).bind pred_opt with
    | none => .error (.InvalidDate ("invalid month " ++ Nat.repr month))
    | some last_day =>
      match monthName month with
      | none => .error (.InvalidDate ("invalid month " ++ Nat.repr month))
      | some nm =>
        .ok ⟨month, year, nm ++ " " ++ toString year, first_day, last_day, hm⟩

/-- `DisplayMonth::next` (src/display_month.rs lines 41-49). -/
def DisplayMonth.next (dm : DisplayMonth) : Except CalError DisplayMonth :=
  let next_month := dm.month % 12 + 1
  let year := if dm.month < next_month then dm.year else dm.year + 1
  DisplayMonth.new next_month year dm.hm

/-- `DisplayMonth::prev` (src/display_month.rs lines 51-59). -/
def DisplayMonth.prev (dm : DisplayMonth) : Except CalError DisplayMonth :=
  let prev_month := if dm.month = 1 then 12 else dm.month - 1
  let year := if prev_month < dm.month then dm.year else dm.year - 1
  DisplayMonth.new prev_month year dm.hm

/-- The style a rendered day cell receives (src/display_month.rs lines
80-88): black-on-white for today, green for weekends, red for holidays,
unstyled otherwise, and the empty string for leading placeholders. -/
inductive CellClass where
  | inverse
  | weekend
  | holiday
  | plain
  | empty
deriving DecidableEq, Repr

/-- The match arms of the second closure in `get_matrix`. -/
def styleCell (today : Date) (x : Option (Date × Bool)) : CellClass :=
  match x with
  | none => .empty
  | some (cr, isHol) =>
    if cr = today then .inverse
    else if isWeekend cr then .weekend
    else if isHol then .holiday
    else .plain

/-- The first closure in `get_matrix`: walk the cell indices, threading
`curr_day`, emitting `None` before the month's first weekday and
`Some (date, is_holiday)` afterwards. -/
def dayCellsGo (hm : HM) (month : Nat) (firstIndex : Nat) :
    List Nat → Date → List (Option (Date × Bool))
  | [], _ => []
  | i :: rest, curr =>
    if i < firstIndex then
      none :: dayCellsGo hm month firstIndex rest curr
    else
      let nxt :=
        match succ_opt curr with
        | some nd => nd
        | none => curr
      some (curr, HM.containsKey hm (curr.day, month)) ::
        dayCellsGo hm month firstIndex rest nxt

/-- The cell sequence of `get_matrix`: indices `1 .. last_day + first_index`
(exclusive) over the month, starting at the first day. -/
def dayCells (dm : DisplayMonth) : List (Option (Date × Bool)) :=
  let firstIndex := numberFromMonday dm.first_day
  dayCellsGo dm.hm dm.month firstIndex
    (List.range' 1 (dm.last_day.day + firstIndex - 1)) dm.first_day

/-- `slice::chunks(7)`. -/
def chunks7 : List CellClass → List (List CellClass)
  | [] => []
  | x :: xs => ((x :: xs).take 7) :: chunks7 ((x :: xs).drop 7)
termination_by l => l.length
decreasing_by
  simp only [List.length_drop, List.length_cons]
  omega

/-- `DisplayMonth::get_matrix` (src/display_month.rs lines 61-93); `today`
is `Utc::now().naive_local().date()`, passed in as a parameter. -/
def get_matrix (today : Date) (dm : DisplayMonth) : List (List CellClass) :=
  chunks7 ((dayCells dm).map (styleCell today))

/-- `format!("Custom holiday ({day:02}/{month:02})")` from `add`. -/
def customName (day month : Nat) : String :=
  "Custom holiday (" ++ pad2 day ++ "/" ++ pad2 month ++ ")"

/-- The map transformation inside `add` (src/cli/actions.rs lines
212-218): occupied entry left untouched, vacant entry filled with a
`Custom` record. -/
def addEntry (hm : HM) (day month : Nat) : HM :=
  match HM.find? hm (day, month) with
  | some _ => hm
  | none => HM.insertKV hm (day, month) (HolidayEntry.custom (customName day month))

/-- `RealEnvironment::load` (src/cli/actions.rs lines 43-47): load the
cache file for the year, treating a missing file as the empty map
(`unwrap_or_default`); a load error propagates. -/
def envLoad (fs : FS) (fname : String) : Except CalError (FS × HM) :=
  match load fs fname with
  | .error e => .error e
  | .ok (fs1, cached) => .ok (fs1, cached.getD [])

/-- `add` (src/cli/actions.rs lines 209-221) run against
`RealEnvironment`: load the year's map, insert if vacant, save, print
"OK".  Returns the updated filesystem and the emitted lines. -/
def addAction (fs : FS) (year : Int) (provider : Provider) (day month : Nat) :
    Except CalError (FS × List String) :=
  let fname := get_filename year provider
  match envLoad fs fname with
  | .error e => .error e
  | .ok (fs1, hm) =>
    let hm2 := addEntry hm day month
    .ok (save fs1 fname hm2, ["OK"])

/-- The `kind` label used by `list`. -/
def kindLabel : HolidayKind → String
  | .Official => "official"
  | .Custom => "custom"

/-- One output line of `list` in table format:
`format!("{date}  {} [{kind}]", entry.name)` with
`date = format!("{year}-{month:02}-{day:02}")`. -/
def formatLine (year : Int) (p : Key × HolidayEntry) : String :=
  let date := toString year ++ "-" ++ pad2 p.1.2 ++ "-" ++ pad2 p.1.1
  date ++ "  " ++ p.2.name ++ " [" ++ kindLabel p.2.kind ++ "]"

/-- The comparison used by `list`'s sort:
`(a.0.1, a.0.0).cmp(&(b.0.1, b.0.0))`, i.e. `(month, day)` ascending. -/
def holidayLE (a b : Key × HolidayEntry) : Bool :=
  a.1.2 < b.1.2 || (a.1.2 = b.1.2 && a.1.1 ≤ b.1.1)

/-- The sorted listing of `list` (src/cli/actions.rs line 120).  Rust's
`sort_by` is a stable comparison sort; it is modelled by insertion sort
(also stable, and keys are unique so ties between distinct entries cannot
occur). -/
def listSorted (hm : HM) : List (Key × HolidayEntry) :=
  List.insertionSort (fun a b => holidayLE a b = true) hm

/-- The body lines of `list` in table format. -/
def listLines (year : Int) (hm : HM) : List String :=
  (listSorted hm).map (formatLine year)

/-- `list` in table format (src/cli/actions.rs lines 110-136): the
sequence of `println` calls it performs given the year's holidays. -/
def listTable (year : Int) (hm : HM) : List String :=
  if hm.isEmpty then ["No holidays found"]
  else [String.intercalate "\n" (listLines year hm)]

/-! Concrete inputs used to instantiate the theorems below. -/

/-- A filesystem with no cache files at all. -/
def fsEmpty : FS := fun _ => none

/-- A cache file whose bytes decode under neither schema. -/
def fileGarbage : CacheFile := ⟨100, .garbage⟩

/-- A filesystem holding a corrupt cache for year 2024 of the default
provider. -/
def fsGarbage2024 : FS :=
  fun f => if f = get_filename 2024 .ArgentinaDatos then some fileGarbage else none

/-- The legacy cache content of the spec's migration example. -/
def legacyPair : LegacyHM := [((1, 1), true), ((2, 1), false)]

/-- A cache file holding `legacyPair` in the legacy schema (8-byte length
prefix plus 4+4+1 bytes per entry). -/
def fileLegacyPair : CacheFile := ⟨26, .legacy legacyPair⟩

/-- A filesystem holding `fileLegacyPair` for year 2024 of the default
provider. -/
def fsLegacy2024 : FS :=
  fun f => if f = get_filename 2024 .ArgentinaDatos then some fileLegacyPair else none

/-- A cache file one byte over the 10 MiB guard, with decodable content. -/
def fileOversized : CacheFile := ⟨MAX_CACHE_BYTES + 1, .current []⟩

/-- A filesystem holding `fileOversized` at a fixed path. -/
def fsOversized : FS :=
  fun f => if f = "~/.config/hm-2024" then some fileOversized else none

/-- A map fetched by a (stubbed) successful network round trip. -/
def hmFetched : HM := [((1, 1), HolidayEntry.official "New Year")]

/-- A holiday map with one custom entry on January 6. -/
def hmJan : HM := [((6, 1), HolidayEntry.custom "Test custom holiday")]

/-- The `DisplayMonth` produced by `DisplayMonth::new(1, 1970, hmJan)`. -/
def dmJan1970 : DisplayMonth :=
  ⟨1, 1970, "January 1970", ⟨1970, 1, 1⟩, ⟨1970, 1, 31⟩, hmJan⟩

/-- A "today" far from January 1970. -/
def todayJune : Date := ⟨1970, 6, 15⟩

/-- The `DisplayMonth` produced by `DisplayMonth::new(12, 2023, [])`. -/
def dmDec2023 : DisplayMonth :=
  ⟨12, 2023, "December 2023", ⟨2023, 12, 1⟩, ⟨2023, 12, 31⟩, []⟩

/-- The `DisplayMonth` produced by `DisplayMonth::new(1, 2024, [])`. -/
def dmJan2024 : DisplayMonth :=
  ⟨1, 2024, "January 2024", ⟨2024, 1, 1⟩, ⟨2024, 1, 31⟩, []⟩

/-! Helper lemmas about the association-list model of `HashMap`. -/

theorem find?_insertKV (hm : HM) (k k' : Key) (v : HolidayEntry) :
    HM.find? (HM.insertKV hm k v) k' = if k = k' then some v else HM.find? hm k' := by
  induction hm with
  | nil => simp [HM.insertKV, HM.find?]
  | cons p rest ih =>
    obtain ⟨a, w⟩ := p
    by_cases hak : a = k <;> by_cases hk : k = k' <;>
      simp_all [HM.insertKV, HM.find?]

theorem containsKey_insertKV (hm : HM) (k k' : Key) (v : HolidayEntry) :
    HM.containsKey (HM.insertKV hm k v) k' = (decide (k = k') || HM.containsKey hm k') := by
  simp only [HM.containsKey, find?_insertKV]
  by_cases h : k = k' <;> simp [h]

/-- Characterization of the migration loop via an arbitrary accumulator. -/
theorem find?_migrate_go (legacy : LegacyHM) :
    ∀ (acc : HM) (k : Key),
      (∀ k', HM.find? acc k' = none ∨
        HM.find? acc k' = some (HolidayEntry.custom (legacyName k'))) →
      HM.find? (legacy.foldl
        (fun acc p =>
          if p.2 then HM.insertKV acc p.1 (HolidayEntry.custom (legacyName p.1))
          else acc) acc) k =
        if legacy.any (fun p => decide (p.1 = k) && p.2) || (HM.find? acc k).isSome
        then some (HolidayEntry.custom (legacyName k)) else none := by
  induction legacy with
  | nil =>
    intro acc k hacc
    simp only [List.foldl_nil, List.any_nil, Bool.false_or]
    rcases hacc k with h | h <;> simp [h]
  | cons p rest ih =>
    intro acc k hacc
    simp only [List.foldl_cons, List.any_cons]
    have hacc' : ∀ k', HM.find?
        (if p.2 then HM.insertKV acc p.1 (HolidayEntry.custom (legacyName p.1)) else acc) k' =
        none ∨ HM.find?
        (if p.2 then HM.insertKV acc p.1 (HolidayEntry.custom (legacyName p.1)) else acc) k' =
        some (HolidayEntry.custom (legacyName k')) := by
      intro k'
      by_cases hp : p.2 = true
      · rw [if_pos hp, find?_insertKV]
        by_cases hpk : p.1 = k'
        · subst hpk; simp
        · rw [if_neg hpk]; exact hacc k'
      · rw [if_neg hp]; exact hacc k'
    rw [ih _ k hacc']
    by_cases hp : p.2 = true
    · by_cases hpk : p.1 = k
      · subst hpk
        simp [hp, find?_insertKV]
      · simp [hp, hpk, find?_insertKV]
    · simp only [Bool.not_eq_true] at hp
      simp [hp]

/-- `migrateLegacy` keeps exactly the `true`-valued keys, as `Custom`
entries with generated names. -/
theorem find?_migrateLegacy (legacy : LegacyHM) (k : Key) :
    HM.find? (migrateLegacy legacy) k =
      if legacy.any (fun p => decide (p.1 = k) && p.2)
      then some (HolidayEntry.custom (legacyName k)) else none := by
  have h := find?_migrate_go legacy [] k (fun k' => Or.inl rfl)
  simpa [migrateLegacy, HM.find?] using h

/-- Keys of `build_holidays`: exactly the parseable dates of the input. -/
theorem containsKey_build_go (entries : List (String × String)) :
    ∀ (acc : HM) (k : Key),
      HM.containsKey (entries.foldl
        (fun hm p =>
          match parse_date p.1 with
          | some k => HM.insertKV hm k (HolidayEntry.official p.2)
          | none => hm) acc) k =
      (entries.any (fun p => decide (parse_date p.1 = some k)) || HM.containsKey acc k) := by
  induction entries with
  | nil => intro acc k; simp
  | cons p rest ih =>
    intro acc k
    simp only [List.foldl_cons, List.any_cons, ih]
    cases hp : parse_date p.1 with
    | none => simp [hp]
    | some k' =>
      by_cases hk : k' = k
      · subst hk; simp [hp, containsKey_insertKV]
      · simp [hp, containsKey_insertKV, hk, Option.some_inj]

/-- Values of `build_holidays` all come from an input entry whose date
parses to their key, tagged `Official`. -/
theorem find?_build_go (entries : List (String × String)) :
    ∀ (acc : HM) (k : Key) (e : HolidayEntry),
      HM.find? (entries.foldl
        (fun hm p =>
          match parse_date p.1 with
          | some k => HM.insertKV hm k (HolidayEntry.official p.2)
          | none => hm) acc) k = some e →
      HM.find? acc k = some e ∨
        ∃ p ∈ entries, parse_date p.1 = some k ∧ e = HolidayEntry.official p.2 := by
  induction entries with
  | nil => intro acc k e h; exact Or.inl h
  | cons p rest ih =>
    intro acc k e h
    simp only [List.foldl_cons] at h
    rcases ih _ k e h with h' | ⟨q, hq, hqp, hqe⟩
    · cases hp : parse_date p.1 with
      | none => rw [hp] at h'; exact Or.inl h'
      | some k' =>
        rw [hp, find?_insertKV] at h'
        by_cases hk : k' = k
        · subst hk
          rw [if_pos rfl] at h'
          exact Or.inr ⟨p, List.mem_cons_self .., hp, (Option.some_inj.mp h').symm⟩
        · rw [if_neg hk] at h'
          exact Or.inl h'
    · exact Or.inr ⟨q, List.mem_cons_of_mem _ hq, hqp, hqe⟩

/-- C3: Provider resolution maps no country to the default
`ArgentinaDatos`; a supplied string is trimmed, rejected with a `Config`
error when empty, uppercased, rejected with a `Config` error when its
length is not 2-3 or a character is not an ASCII letter; `"AR"` (any
case) maps to `ArgentinaDatos` and every other accepted code maps to
`OpenHolidays` with the uppercased code.  In particular `""`, `" "`,
`"1"`, `"U1"`, `"UNIT"`, `"U_S"` are rejected and `"us"` is accepted as
`OpenHolidays{country_code: "US"}`. -/
theorem from_country_resolution :
    (Provider.from_country none = .ok .ArgentinaDatos) ∧
    (∀ s : String, (rustTrim s).isEmpty = true →
      Provider.from_country (some s) = .error (.Config "--country cannot be empty")) ∧
    (∀ s : String, (rustTrim s).isEmpty = false →
      ¬ (2 ≤ (rustToUpper (rustTrim s)).utf8ByteSize ∧
          (rustToUpper (rustTrim s)).utf8ByteSize ≤ 3) →
      Provider.from_country (some s) =
        .error (.Config "--country must be a 2- or 3-letter ISO code")) ∧
    (∀ s : String, (rustTrim s).isEmpty = false →
      (2 ≤ (rustToUpper (rustTrim s)).utf8ByteSize ∧
        (rustToUpper (rustTrim s)).utf8ByteSize ≤ 3) →
      ((rustToUpper (rustTrim s)).toList.all fun ch => ch.isAlpha) = false →
      Provider.from_country (some s) =
        .error (.Config "--country must contain only ASCII letters")) ∧
    (∀ s : String, (rustTrim s).isEmpty = false →
      (2 ≤ (rustToUpper (rustTrim s)).utf8ByteSize ∧
        (rustToUpper (rustTrim s)).utf8ByteSize ≤ 3) →
      ((rustToUpper (rustTrim s)).toList.all fun ch => ch.isAlpha) = true →
      rustToUpper (rustTrim s) = "AR" →
      Provider.from_country (some s) = .ok .ArgentinaDatos) ∧
    (∀ s : String, (rustTrim s).isEmpty = false →
      (2 ≤ (rustToUpper (rustTrim s)).utf8ByteSize ∧
        (rustToUpper (rustTrim s)).utf8ByteSize ≤ 3) →
      ((rustToUpper (rustTrim s)).toList.all fun ch => ch.isAlpha) = true →
      rustToUpper (rustTrim s) ≠ "AR" →
      Provider.from_country (some s) = .ok (.OpenHolidays (rustToUpper (rustTrim s)))) ∧
    (Provider.from_country (some "") = .error (.Config "--country cannot be empty")) ∧
    (Provider.from_country (some " ") = .error (.Config "--country cannot be empty")) ∧
    (Provider.from_country (some "1") =
      .error (.Config "--country must be a 2- or 3-letter ISO code")) ∧
    (Provider.from_country (some "U1") =
      .error (.Config "--country must contain only ASCII letters")) ∧
    (Provider.from_country (some "UNIT") =
      .error (.Config "--country must be a 2- or 3-letter ISO code")) ∧
    (Provider.from_country (some "U_S") =
      .error (.Config "--country must contain only ASCII letters")) ∧
    (Provider.from_country (some "us") = .ok (.OpenHolidays "US")) ∧
    (Provider.from_country (some "AR") = .ok .ArgentinaDatos) ∧
    (Provider.from_country (some "ar") = .ok .ArgentinaDatos) := by
  refine ⟨rfl, ?_, ?_, ?_, ?_, ?_, by decide, by decide, by decide, by decide,
    by decide, by decide, by decide, by decide, by decide⟩
  · intro s h1
    simp [Provider.from_country, h1]
  · intro s h1 h2
    simp [Provider.from_country, h1, h2]
  · intro s h1 h2 h3
    simp only [Provider.from_country, h1, Bool.false_eq_true, if_false]
    rw [if_neg (by simpa using h2), if_pos (by simp only [h3]; decide)]
  · intro s h1 h2 h3 h4
    simp only [Provider.from_country, h1, Bool.false_eq_true, if_false, h3]
    rw [if_neg (by simpa using h2), if_neg (by simp), if_pos h4]
  · intro s h1 h2 h3 h4
    simp only [Provider.from_country, h1, Bool.false_eq_true, if_false, h3]
    rw [if_neg (by simpa using h2), if_neg (by simp), if_neg h4]

/-- C3 witness: the resolution theorem applied to `"de"`. -/
theorem from_country_resolution_witness :
    Provider.from_country (some "de") = .ok (.OpenHolidays (rustToUpper (rustTrim "de"))) :=
  from_country_resolution.2.2.2.2.2.1 "de" (by decide) (by decide)
    (by decide) (by decide)

/-- C7: a cache file whose size exceeds 10 MiB is rejected by `load` with
a `Cache` error regardless of its content, before any decode is
attempted. -/
theorem load_rejects_oversized (fs : FS) (fname : String) (file : CacheFile)
    (hf : fs fname = some file) (hsize : MAX_CACHE_BYTES < file.size) :
    load fs fname = .error (.Cache ("cache " ++ fname ++ " exceeds " ++
      toString MAX_CACHE_BYTES ++ " bytes")) := by
  simp only [load, hf]
  rw [if_pos hsize]

/-- C7 witness: an oversized file with perfectly decodable content is
still rejected. -/
theorem load_rejects_oversized_witness :
    load fsOversized "~/.config/hm-2024" = .error (.Cache ("cache " ++
      "~/.config/hm-2024" ++ " exceeds " ++ toString MAX_CACHE_BYTES ++ " bytes")) :=
  load_rejects_oversized fsOversized "~/.config/hm-2024" fileOversized rfl (by decide)

/-- C2: a cache file that fails the current-schema decode but decodes
under the legacy boolean schema is migrated: every `true`-valued entry
becomes a `Custom` entry with a generated name, `false`-valued entries
are discarded, the migrated map is written back to the same path, and
the migrated map is returned; in particular `{(1,1): true, (2,1): false}`
migrates to a map holding only `(1,1)`, tagged `Custom`. -/
theorem load_migrates_legacy (fs : FS) (fname : String) (file : CacheFile)
    (legacy : LegacyHM) (hf : fs fname = some file)
    (hsize : ¬ MAX_CACHE_BYTES < file.size)
    (hcur : decodeCurrent file.content = none)
    (hleg : decodeLegacy file.content = some legacy) :
    load fs fname =
      .ok (save fs fname (migrateLegacy legacy), some (migrateLegacy legacy)) ∧
    (∀ k : Key, HM.find? (migrateLegacy legacy) k =
      if legacy.any (fun p => decide (p.1 = k) && p.2)
      then some (HolidayEntry.custom (legacyName k)) else none) ∧
    migrateLegacy [((1, 1), true), ((2, 1), false)] =
      [((1, 1), HolidayEntry.custom "Legacy holiday (01/01)")] := by
  refine ⟨?_, fun k => find?_migrateLegacy legacy k, by decide⟩
  simp only [load, hf]
  rw [if_neg hsize]
  simp [hcur, hleg]

/-- C1 counterexample: with a corrupt (neither-schema) cache file present
and a fetcher that would succeed, `get_holidays` does not invoke the
fetcher and return the fetched map as the claim states: it propagates the
`Cache` error from `load`. -/
theorem get_holidays_corrupt_counterexample :
    get_holidays (Except.ok hmFetched) fsGarbage2024 2024 .ArgentinaDatos =
      .error (.Cache ("failed to deserialize cache " ++
        get_filename 2024 .ArgentinaDatos)) ∧
    ¬ (get_holidays (Except.ok hmFetched) fsGarbage2024 2024 .ArgentinaDatos =
      .ok (save fsGarbage2024 (get_filename 2024 .ArgentinaDatos) hmFetched,
        hmFetched)) := by
  refine ⟨rfl, ?_⟩
  intro h
  rw [show get_holidays (Except.ok hmFetched) fsGarbage2024 2024 .ArgentinaDatos =
    .error (.Cache ("failed to deserialize cache " ++
      get_filename 2024 .ArgentinaDatos)) from rfl] at h
  exact Except.noConfusion h

/-- C1 (amended): `get_holidays` first attempts `load`; on a successful
load it returns the cached map immediately (for any fetch outcome); on a
cache miss (file absent) it invokes the fetcher, saves the fetched map to
the cache path and returns it; a `load` failure (invalid/corrupt or
oversized file) is propagated as an error and the fetcher's result is
never consulted. -/
theorem get_holidays_cache_first (fetchResult : Except CalError HM) (fs : FS)
    (year : Int) (provider : Provider) :
    (∀ (fs1 : FS) (hm : HM),
      load fs (get_filename year provider) = .ok (fs1, some hm) →
      get_holidays fetchResult fs year provider = .ok (fs1, hm)) ∧
    (∀ (fs1 : FS) (hm : HM),
      load fs (get_filename year provider) = .ok (fs1, none) →
      fetchResult = .ok hm →
      get_holidays fetchResult fs year provider =
        .ok (save fs1 (get_filename year provider) hm, hm)) ∧
    (∀ e : CalError,
      load fs (get_filename year provider) = .error e →
      get_holidays fetchResult fs year provider = .error e) := by
  refine ⟨?_, ?_, ?_⟩
  · intro fs1 hm h
    simp [get_holidays, h]
  · intro fs1 hm h hf
    simp [get_holidays, h, hf]
  · intro e h
    simp [get_holidays, h]

/-- C1 witness: the amended theorem applied to an empty filesystem (a
genuine cache miss) and a successful fetch. -/
theorem get_holidays_cache_first_witness :
    get_holidays (Except.ok hmFetched) fsEmpty 2024 .ArgentinaDatos =
      .ok (save fsEmpty (get_filename 2024 .ArgentinaDatos) hmFetched, hmFetched) :=
  (get_holidays_cache_first (Except.ok hmFetched) fsEmpty 2024
    .ArgentinaDatos).2.1 fsEmpty hmFetched rfl rfl

/-- C6: `build_holidays` keys are exactly the parseable dates of the
provider response, read positionally as `(day, month)` from the
`YYYY-MM-DD` split; every stored value is an `Official` entry named by
some input whose date parses to its key; unparseable dates are silently
dropped without failing the whole build; and no range validation is
performed (month 13 / day 45 are stored as-is). -/
theorem build_holidays_spec :
    (∀ (entries : List (String × String)) (k : Key),
      HM.containsKey (build_holidays entries) k =
        entries.any (fun p => decide (parse_date p.1 = some k))) ∧
    (∀ (entries : List (String × String)) (k : Key) (e : HolidayEntry),
      HM.find? (build_holidays entries) k = some e →
      e.kind = .Official ∧
        ∃ p ∈ entries, parse_date p.1 = some k ∧ e = HolidayEntry.official p.2) ∧
    (parse_date "2024-05-01" = some (1, 5)) ∧
    (parse_date "2024-13-45" = some (45, 13)) ∧
    (HM.containsKey (build_holidays [("2024-13-45", "X")]) (45, 13) = true) ∧
    (parse_date "not-a-date" = none) ∧
    (parse_date "2024-05" = none) ∧
    (build_holidays [("not-a-date", "Bad"), ("2024-05-01", "Valid")] =
      [((1, 5), HolidayEntry.official "Valid")]) := by
  refine ⟨?_, ?_, by decide, by decide, by decide, by decide, by decide, by decide⟩
  · intro entries k
    have h := containsKey_build_go entries [] k
    simpa [build_holidays, HM.containsKey, HM.find?] using h
  · intro entries k e h
    have h' := find?_build_go entries [] k e (by simpa [build_holidays] using h)
    rcases h' with h' | ⟨p, hp, hpd, hpe⟩
    · simp [HM.find?] at h'
    · exact ⟨by simp [hpe, HolidayEntry.official], ⟨p, hp, hpd, hpe⟩⟩

/-- C6 witness: the value stored for `(1, 5)` after building from
`[("2024-05-01", "Valid")]` is an `Official` entry from that input. -/
theorem build_holidays_spec_witness :
    (HolidayEntry.official "Valid").kind = .Official ∧
      ∃ p ∈ [("2024-05-01", "Valid")], parse_date p.1 = some (1, 5) ∧
        HolidayEntry.official "Valid" = HolidayEntry.official p.2 :=
  build_holidays_spec.2.1 [("2024-05-01", "Valid")] (1, 5)
    (HolidayEntry.official "Valid") (by decide)

/-- C2 witness: the migration theorem applied to a concrete filesystem
holding the spec's example legacy cache. -/
theorem load_migrates_legacy_witness :
    load fsLegacy2024 (get_filename 2024 .ArgentinaDatos) =
      .ok (save fsLegacy2024 (get_filename 2024 .ArgentinaDatos)
        (migrateLegacy legacyPair), some (migrateLegacy legacyPair)) ∧
    (∀ k : Key, HM.find? (migrateLegacy legacyPair) k =
      if legacyPair.any (fun p => decide (p.1 = k) && p.2)
      then some (HolidayEntry.custom (legacyName k)) else none) ∧
    migrateLegacy [((1, 1), true), ((2, 1), false)] =
      [((1, 1), HolidayEntry.custom "Legacy holiday (01/01)")] :=
  load_migrates_legacy fsLegacy2024 (get_filename 2024 .ArgentinaDatos)
    fileLegacyPair legacyPair rfl (by decide) rfl rfl

/-- C8: `add` on a vacant `(day, month)` inserts a `Custom` entry whose
name contains "Custom holiday"; `add` on an occupied `(day, month)`
leaves the existing entry (kind and name) unchanged; and the resulting
map is saved at the year's cache path. -/
theorem add_action_spec (fs : FS) (year : Int) (provider : Provider)
    (day month : Nat) (fs1 : FS) (hm : HM)
    (hload : envLoad fs (get_filename year provider) = .ok (fs1, hm)) :
    addAction fs year provider day month =
      .ok (save fs1 (get_filename year provider) (addEntry hm day month), ["OK"]) ∧
    (HM.find? hm (day, month) = none →
      HM.find? (addEntry hm day month) (day, month) =
        some (HolidayEntry.custom (customName day month)) ∧
      ∃ rest, customName day month = "Custom holiday" ++ rest) ∧
    (∀ e : HolidayEntry, HM.find? hm (day, month) = some e →
      addEntry hm day month = hm ∧
      HM.find? (addEntry hm day month) (day, month) = some e) ∧
    (save fs1 (get_filename year provider) (addEntry hm day month))
        (get_filename year provider) = some (encode (addEntry hm day month)) := by
  refine ⟨?_, ?_, ?_, ?_⟩
  · simp [addAction, hload]
  · intro hv
    refine ⟨by simp [addEntry, hv, find?_insertKV],
      ⟨" (" ++ pad2 day ++ "/" ++ pad2 month ++ ")", ?_⟩⟩
    rw [customName]
    simp only [← String.append_assoc]
    rfl
  · intro e he
    have hid : addEntry hm day month = hm := by simp [addEntry, he]
    exact ⟨hid, by rw [hid, he]⟩
  · simp [save]

/-- C8 witness: adding December 24 to an empty store. -/
theorem add_action_spec_witness :
    addAction fsEmpty 2024 .ArgentinaDatos 24 12 =
      .ok (save fsEmpty (get_filename 2024 .ArgentinaDatos)
        (addEntry [] 24 12), ["OK"]) :=
  (add_action_spec fsEmpty 2024 .ArgentinaDatos 24 12 fsEmpty [] rfl).1

theorem holidayLE_trans (a b c : Key × HolidayEntry)
    (hab : holidayLE a b = true) (hbc : holidayLE b c = true) :
    holidayLE a c = true := by
  simp only [holidayLE, Bool.or_eq_true, Bool.and_eq_true,
    decide_eq_true_eq] at hab hbc ⊢
  omega

theorem holidayLE_total (a b : Key × HolidayEntry) :
    (holidayLE a b || holidayLE b a) = true := by
  simp only [holidayLE, Bool.or_eq_true, Bool.and_eq_true, decide_eq_true_eq]
  omega

/-- C9: `list` on an empty holiday set emits exactly the line
"No holidays found"; on a non-empty set it emits one line per entry (the
printed lines are a permutation image of the map), ordered by
`(month, day)` ascending, so `(10, 5)` and `(1, 5)` render day 1 first. -/
theorem list_table_spec (year : Int) (hm : HM) :
    (hm.isEmpty = true → listTable year hm = ["No holidays found"]) ∧
    (hm.isEmpty = false →
      listTable year hm = [String.intercalate "\n" (listLines year hm)] ∧
      (listLines year hm).length = hm.length ∧
      List.Pairwise (fun a b => holidayLE a b = true) (listSorted hm) ∧
      (listSorted hm).Perm hm) ∧
    listTable 2024 [((10, 5), HolidayEntry.official "Later Holiday"),
        ((1, 5), HolidayEntry.official "Earlier Holiday")] =
      ["2024-05-01  Earlier Holiday [official]\n2024-05-10  Later Holiday [official]"] := by
  refine ⟨?_, ?_, by decide⟩
  · intro h; simp [listTable, h]
  · intro h
    refine ⟨by simp [listTable, h], ?_, ?_,
      List.perm_insertionSort (fun a b => holidayLE a b = true) hm⟩
    · simp [listLines, listSorted,
        (List.perm_insertionSort (fun a b => holidayLE a b = true) hm).length_eq]
    · haveI : IsTotal (Key × HolidayEntry) (fun a b => holidayLE a b = true) :=
        ⟨fun a b => by
          have := holidayLE_total a b
          rcases Bool.or_eq_true_iff.mp this with h | h
          · exact Or.inl h
          · exact Or.inr h⟩
      haveI : IsTrans (Key × HolidayEntry) (fun a b => holidayLE a b = true) :=
        ⟨fun a b c => holidayLE_trans a b c⟩
      exact List.sorted_insertionSort _ hm

/-- C9 witness: listing an empty holiday set. -/
theorem list_table_spec_witness :
    listTable 2030 [] = ["No holidays found"] :=
  (list_table_spec 2030 []).1 rfl

theorem pad2_length_le (n : Nat) (h : n < 10 ^ 10) : (pad2 n).length ≤ 10 := by
  by_cases hlen : (Nat.repr n).length < 2
  · rw [pad2, if_pos hlen, String.length_append]
    have h0 : ("0" : String).length = 1 := rfl
    omega
  · rw [pad2, if_neg hlen]
    exact Nat.repr_length n 10 (by norm_num) h

theorem customName_length_le (day month : Nat) (hd : day < 2 ^ 32)
    (hmn : month < 2 ^ 32) : (customName day month).length ≤ 38 := by
  have h1 : (pad2 day).length ≤ 10 := pad2_length_le day (by omega)
  have h2 : (pad2 month).length ≤ 10 := pad2_length_le month (by omega)
  simp only [customName, String.length_append]
  have e1 : ("Custom holiday (" : String).length = 16 := rfl
  have e2 : ("/" : String).length = 1 := rfl
  have e3 : (")" : String).length = 1 := rfl
  omega

theorem encodedSize_single_custom_le (day month : Nat) (hd : day < 2 ^ 32)
    (hmn : month < 2 ^ 32) :
    encodedSize [((day, month), HolidayEntry.custom (customName day month))] ≤
      MAX_CACHE_BYTES := by
  have h := customName_length_le day month hd hmn
  simp only [encodedSize, encodedEntrySize, HolidayEntry.custom, List.map_cons,
    List.map_nil, List.sum_cons, List.sum_nil, MAX_CACHE_BYTES]
  omega

/-- C10: with no cache file for the year, `add(day, month)` loads the
empty map, inserts the single `Custom` entry and saves it, so the cache
file now holds exactly that entry; every subsequent `get_holidays` for
that `(year, provider)` then loads this file as a cache hit and returns
it, for any fetch outcome, so official holidays are never fetched. -/
theorem add_then_cache_hit (fs : FS) (year : Int) (provider : Provider)
    (day month : Nat) (hd : day < 2 ^ 32) (hmn : month < 2 ^ 32)
    (habsent : fs (get_filename year provider) = none) :
    addAction fs year provider day month =
      .ok (save fs (get_filename year provider)
        [((day, month), HolidayEntry.custom (customName day month))], ["OK"]) ∧
    (save fs (get_filename year provider)
        [((day, month), HolidayEntry.custom (customName day month))])
      (get_filename year provider) =
      some (encode [((day, month), HolidayEntry.custom (customName day month))]) ∧
    (∀ fetchResult : Except CalError HM,
      get_holidays fetchResult
        (save fs (get_filename year provider)
          [((day, month), HolidayEntry.custom (customName day month))])
        year provider =
      .ok (save fs (get_filename year provider)
          [((day, month), HolidayEntry.custom (customName day month))],
        [((day, month), HolidayEntry.custom (customName day month))])) := by
  refine ⟨?_, by simp [save], ?_⟩
  · simp [addAction, envLoad, load, habsent, addEntry, HM.find?, HM.insertKV]
  · intro fetchResult
    have hsize : ¬ MAX_CACHE_BYTES <
        (encode [((day, month), HolidayEntry.custom (customName day month))]).size :=
      Nat.not_lt.mpr (encodedSize_single_custom_le day month hd hmn)
    have hfs : (save fs (get_filename year provider)
        [((day, month), HolidayEntry.custom (customName day month))])
        (get_filename year provider) =
        some (encode [((day, month), HolidayEntry.custom (customName day month))]) := by
      simp [save]
    have hload2 : load (save fs (get_filename year provider)
        [((day, month), HolidayEntry.custom (customName day month))])
        (get_filename year provider) =
        .ok (save fs (get_filename year provider)
          [((day, month), HolidayEntry.custom (customName day month))],
          some [((day, month), HolidayEntry.custom (customName day month))]) := by
      simp only [load, hfs]
      rw [if_neg hsize]
      rfl
    simp [get_holidays, hload2]

/-- C10 witness: after adding December 24 into an empty store, even a
failing fetcher does not matter: the cache hit returns the stored map. -/
theorem add_then_cache_hit_witness :
    get_holidays (Except.error (CalError.Http "network down"))
      (save fsEmpty (get_filename 2024 .ArgentinaDatos)
        [((24, 12), HolidayEntry.custom (customName 24 12))]) 2024 .ArgentinaDatos =
      .ok (save fsEmpty (get_filename 2024 .ArgentinaDatos)
          [((24, 12), HolidayEntry.custom (customName 24 12))],
        [((24, 12), HolidayEntry.custom (customName 24 12))]) :=
  (add_then_cache_hit fsEmpty 2024 .ArgentinaDatos 24 12 (by decide) (by decide)
    rfl).2.2 (Except.error (CalError.Http "network down"))

/-- Successful construction pins down the month and year fields and
forces the month into 1..=12. -/
theorem new_ok_fields (month : Nat) (year : Int) (hm : HM) (dm : DisplayMonth)
    (h : DisplayMonth.new month year hm = .ok dm) :
    dm.month = month ∧ dm.year = year ∧ 1 ≤ month ∧ month ≤ 12 := by
  unfold DisplayMonth.new at h
  cases h1 : from_ymd_opt year month 1 with
  | none => rw [h1] at h; exact absurd h (by simp)
  | some fd =>
    rw [h1] at h
    have hb : 1 ≤ month ∧ month ≤ 12 := by
      unfold from_ymd_opt at h1
      split at h1
      · rename_i hc; exact ⟨hc.2.2.1, hc.2.2.2.1⟩
      · exact absurd h1 (by simp)
    cases h2 : ((from_ymd_opt year (month + 1) 1).orElse
        (fun _ => from_ymd_opt (year + 1) 1 1)).bind pred_opt with
    | none => rw [h2] at h; exact absurd h (by simp)
    | some ld =>
      rw [h2] at h
      cases h3 : monthName month with
      | none => rw [h3] at h; exact absurd h (by simp)
      | some nm =>
        rw [h3] at h
        injection h with h'
        subst h'
        exact ⟨rfl, rfl, hb.1, hb.2⟩

/-- C4: for every constructible month, `prev(next(m, y)) = (m, y)` and
`next(prev(m, y)) = (m, y)` whenever the intermediate months are also
constructible, including across the December/January year boundary. -/
theorem next_prev_round_trip (m : Nat) (y : Int) (hm : HM)
    (dm dm2 dm3 : DisplayMonth)
    (hnew : DisplayMonth.new m y hm = .ok dm)
    (hcase : (dm.next = .ok dm2 ∧ dm2.prev = .ok dm3) ∨
      (dm.prev = .ok dm2 ∧ dm2.next = .ok dm3)) :
    dm3.month = m ∧ dm3.year = y := by
  obtain ⟨hm1, hy1, hlo, hhi⟩ := new_ok_fields m y hm dm hnew
  rcases hcase with ⟨h2, h3⟩ | ⟨h2, h3⟩
  · simp only [DisplayMonth.next] at h2
    obtain ⟨hm2, hy2, _, _⟩ := new_ok_fields _ _ _ _ h2
    simp only [DisplayMonth.prev] at h3
    obtain ⟨hm3, hy3, _, _⟩ := new_ok_fields _ _ _ _ h3
    rw [hm1] at hm2 hy2
    rw [hy1] at hy2
    rw [hm2] at hm3 hy3
    rw [hy2] at hy3
    constructor
    · rw [hm3]; split_ifs <;> omega
    · rw [hy3]; split_ifs <;> omega
  · simp only [DisplayMonth.prev] at h2
    obtain ⟨hm2, hy2, _, _⟩ := new_ok_fields _ _ _ _ h2
    simp only [DisplayMonth.next] at h3
    obtain ⟨hm3, hy3, _, _⟩ := new_ok_fields _ _ _ _ h3
    rw [hm1] at hm2 hy2
    rw [hy1] at hy2
    rw [hm2] at hm3 hy3
    rw [hy2] at hy3
    constructor
    · rw [hm3]; split_ifs <;> omega
    · rw [hy3]; split_ifs <;> omega

/-- C4 witness: December 2023 → January 2024 → December 2023. -/
theorem next_prev_round_trip_witness :
    dmDec2023.month = 12 ∧ dmDec2023.year = 2023 :=
  next_prev_round_trip 12 2023 [] dmDec2023 dmJan2024 dmDec2023 (by decide)
    (Or.inl ⟨by decide, by decide⟩)

theorem chunks7_flatten (l : List CellClass) : (chunks7 l).flatten = l := by
  induction l using chunks7.induct with
  | case1 => rw [chunks7]; rfl
  | case2 x xs ih =>
    rw [chunks7, List.flatten_cons, ih, List.take_append_drop]

theorem dayCellsGo_shape (hm : HM) (month fi : Nat) :
    ∀ (is : List Nat) (curr : Date) (x : Option (Date × Bool)),
      x ∈ dayCellsGo hm month fi is curr →
      x = none ∨ ∃ cr : Date, x = some (cr, HM.containsKey hm (cr.day, month)) := by
  intro is
  induction is with
  | nil => intro curr x hx; simp [dayCellsGo] at hx
  | cons i rest ih =>
    intro curr x hx
    by_cases hlt : i < fi
    · rw [dayCellsGo, if_pos hlt] at hx
      rcases List.mem_cons.mp hx with h | h
      · exact Or.inl h
      · exact ih _ x h
    · simp only [dayCellsGo, if_neg hlt] at hx
      rcases List.mem_cons.mp hx with h | h
      · exact Or.inr ⟨curr, h⟩
      · exact ih _ x h

/-- C5: every cell of the rendered month grid is either a leading
placeholder or is classified by exactly one style, decided in priority
order: today → inverse, weekend → green, holiday key → red, otherwise
plain. -/
theorem get_matrix_classification (today : Date) (dm : DisplayMonth)
    (cell : CellClass) (hcell : cell ∈ (get_matrix today dm).flatten) :
    cell = .empty ∨ ∃ cr : Date,
      cell = styleCell today (some (cr, HM.containsKey dm.hm (cr.day, dm.month))) ∧
      (cr = today → cell = .inverse) ∧
      (cr ≠ today → isWeekend cr = true → cell = .weekend) ∧
      (cr ≠ today → isWeekend cr = false →
        HM.containsKey dm.hm (cr.day, dm.month) = true → cell = .holiday) ∧
      (cr ≠ today → isWeekend cr = false →
        HM.containsKey dm.hm (cr.day, dm.month) = false → cell = .plain) := by
  rw [get_matrix, chunks7_flatten] at hcell
  obtain ⟨x, hx, rfl⟩ := List.mem_map.mp hcell
  simp only [dayCells] at hx
  rcases dayCellsGo_shape dm.hm dm.month _ _ _ x hx with rfl | ⟨cr, rfl⟩
  · exact Or.inl rfl
  · refine Or.inr ⟨cr, rfl, ?_, ?_, ?_, ?_⟩
    · intro ht; simp [styleCell, ht]
    · intro ht hw; simp [styleCell, ht, hw]
    · intro ht hw hc; simp [styleCell, ht, hw, hc]
    · intro ht hw hc; simp [styleCell, ht, hw, hc]

/-- C5 witness: the classification theorem applied to the red cell of
January 1970 (custom holiday on the 6th), with "today" far away. -/
theorem get_matrix_classification_witness :
    CellClass.holiday = .empty ∨ ∃ cr : Date,
      CellClass.holiday =
        styleCell todayJune (some (cr, HM.containsKey dmJan1970.hm (cr.day, dmJan1970.month))) ∧
      (cr = todayJune → CellClass.holiday = .inverse) ∧
      (cr ≠ todayJune → isWeekend cr = true → CellClass.holiday = .weekend) ∧
      (cr ≠ todayJune → isWeekend cr = false →
        HM.containsKey dmJan1970.hm (cr.day, dmJan1970.month) = true →
        CellClass.holiday = .holiday) ∧
      (cr ≠ todayJune → isWeekend cr = false →
        HM.containsKey dmJan1970.hm (cr.day, dmJan1970.month) = false →
        CellClass.holiday = .plain) :=
  get_matrix_classification todayJune dmJan1970 .holiday
    (by rw [get_matrix, chunks7_flatten]; decide)

end Cal2
